import Mathlib

/-!
Verification development for the `langchain_weaviate` vector-store adapter
(`langchain_weaviate/vectorstores.py`).

The Python module is embedded shallowly:

* Python values occurring in keyword arguments, metadata dictionaries and
  service responses are modelled by the inductive type `PyVal`
  (floats become rationals, dicts become ordered association lists).
* The Weaviate `GetBuilder` query object is the record `QueryObj`; its
  `with_*` builder methods are pure record updates.
* The external Weaviate service is a parameter `svc : QueryObj → SvcResult`
  mapping the built query to the decoded JSON response; the list of
  `QueryObj` values returned alongside each search result is the trace of
  queries actually issued to the service.
* Fallible Python code (`raise ValueError`, `KeyError` on `dict.pop`,
  `IndexError` on list indexing) returns `Except VErr`.
* `maximal_marginal_relevance` is imported by the module from
  `langchain_weaviate/utils.py`, whose source is not part of the reviewed
  file set; it is modelled from the specification (section 4.2), with the
  cosine-similarity kernel abstracted as a function parameter `sim`
  (its real-valued square roots are irrelevant to every selection-structure
  property proved here).
-/

namespace LangchainWeaviate

/-- Components of a naive Python `datetime.datetime` value. -/
structure PyDatetime where
  year : ℕ
  month : ℕ
  day : ℕ
  hour : ℕ
  minute : ℕ
  second : ℕ
  microsecond : ℕ
deriving DecidableEq, Repr

/-- A JSON-compatible Python value as it occurs in kwargs, metadata and
service responses.  Floats are modelled as rationals; dicts as ordered
association lists (Python dicts preserve insertion order). -/
inductive PyVal where
  | none
  | bool (b : Bool)
  | int (n : ℤ)
  | rat (q : ℚ)
  | str (s : String)
  | list (l : List PyVal)
  | dict (d : List (String × PyVal))
  | datetime (d : PyDatetime)

/-- Python truthiness of a `PyVal`, as used by the source's
`if kwargs.get(kwarg)` checks. -/
def truthy : PyVal → Bool
  | PyVal.none => false
  | PyVal.bool b => b
  | PyVal.int n => n ≠ 0
  | PyVal.rat q => q ≠ 0
  | PyVal.str s => s ≠ ""
  | PyVal.list l => !l.isEmpty
  | PyVal.dict d => !d.isEmpty
  | PyVal.datetime _ => true

/-- A decoded service-response record / Python dict with string keys. -/
abbrev Record := List (String × PyVal)

/-- Keyword arguments of a search call. -/
abbrev Kwargs := List (String × PyVal)

/-- `d[k]` as an `Option` (first binding wins). -/
def rget (r : Record) (k : String) : Option PyVal :=
  (r.find? (fun p => p.1 == k)).map Prod.snd

/-- Removal of a key from a dict, as performed by `dict.pop`. -/
def rerase (r : Record) (k : String) : Record :=
  r.filter (fun p => p.1 != k)

/-- Python dict assignment `d[k] = v`: updates the existing binding in
place, else appends a new binding at the end. -/
def rset (r : Record) (k : String) (v : PyVal) : Record :=
  if (r.find? (fun p => p.1 == k)).isSome then
    r.map (fun p => if p.1 == k then (k, v) else p)
  else
    r ++ [(k, v)]

/-- `kwargs.get(k)`: the bound value, or Python `None` when absent. -/
def kget (kwargs : Kwargs) (k : String) : PyVal :=
  ((kwargs.find? (fun p => p.1 == k)).map Prod.snd).getD PyVal.none

/-- Left-pad the decimal rendering of `n` with zeros to width `w`. -/
def pad (w : ℕ) (n : ℕ) : String :=
  let s := toString n
  String.mk (List.replicate (w - s.length) '0') ++ s

/-- `datetime.isoformat()` for a naive datetime: the ISO-8601 rendering,
with the microsecond part present exactly when it is nonzero. -/
def isoformat (d : PyDatetime) : String :=
  pad 4 d.year ++ "-" ++ pad 2 d.month ++ "-" ++ pad 2 d.day ++ "T" ++
    pad 2 d.hour ++ ":" ++ pad 2 d.minute ++ ":" ++ pad 2 d.second ++
    (if d.microsecond = 0 then "" else "." ++ pad 6 d.microsecond)

/-- `_json_serializable` (vectorstores.py lines 46-49): a datetime becomes
its ISO string, every other value passes through unchanged. -/
def _json_serializable (value : PyVal) : PyVal :=
  match value with
  | PyVal.datetime d => PyVal.str (isoformat d)
  | v => v

/-- The error outcomes of the module, one constructor per distinct Python
exception site. -/
inductive VErr where
  | embeddingRequired
  | queryError (e : PyVal)
  | noIdsProvided
  | keyError (k : String)
  | indexError
  | dimensionMismatch

/-- Python list indexing `l[i]`, raising `IndexError` out of range. -/
def pyIndex {α : Type} (l : List α) (i : ℕ) : Except VErr α :=
  match l.get? i with
  | some x => Except.ok x
  | Option.none => Except.error VErr.indexError

/-- Sequential effectful map: the embedding of a Python `for` loop that
builds a list and aborts at the first raised exception. -/
def exceptMap {α β : Type} (f : α → Except VErr β) : List α → Except VErr (List β)
  | [] => Except.ok []
  | x :: xs =>
    match f x with
    | Except.error e => Except.error e
    | Except.ok y =>
      match exceptMap f xs with
      | Except.error e => Except.error e
      | Except.ok ys => Except.ok (y :: ys)

/-- The Weaviate `GetBuilder` query object: the request assembled by
`_build_query_obj` and the chained `with_*` calls of the search methods. -/
structure QueryObj where
  className : String
  properties : List String
  whereFilter : Option PyVal := Option.none
  tenant : Option PyVal := Option.none
  additional : List PyVal := []
  limit : Option PyVal := Option.none
  hybrid : Option (List (String × PyVal)) := Option.none
  nearVector : Option PyVal := Option.none

def QueryObj.with_where (q : QueryObj) (v : PyVal) : QueryObj :=
  { q with whereFilter := some v }

def QueryObj.with_tenant (q : QueryObj) (v : PyVal) : QueryObj :=
  { q with tenant := some v }

/-- `GetBuilder.with_additional` accumulates requested additional
properties. -/
def QueryObj.with_additional (q : QueryObj) (v : PyVal) : QueryObj :=
  { q with additional := q.additional ++ [v] }

def QueryObj.with_limit (q : QueryObj) (v : PyVal) : QueryObj :=
  { q with limit := some v }

def QueryObj.with_hybrid (q : QueryObj) (params : List (String × PyVal)) : QueryObj :=
  { q with hybrid := some params }

def QueryObj.with_near_vector (q : QueryObj) (v : PyVal) : QueryObj :=
  { q with nearVector := some v }

/-- The configured embedding model (external collaborator). -/
structure EmbFn where
  embedQuery : String → List ℚ
  embedDocuments : List String → List (List ℚ)

/-- The state of a `WeaviateVectorStore` instance after `__init__`.
No method of the class reassigns any of these fields. -/
structure WeaviateVectorStore where
  indexName : String
  textKey : String
  embedding : Option EmbFn
  queryAttrs : List String

/-- `WeaviateVectorStore.__init__` (vectorstores.py lines 68-94):
`_query_attrs` starts as `[text_key]` and is extended with `attributes`
when those are given. -/
def WeaviateVectorStore.init (index_name text_key : String)
    (embedding : Option EmbFn) (attributes : Option (List String)) :
    WeaviateVectorStore :=
  { indexName := index_name
    textKey := text_key
    embedding := embedding
    queryAttrs := text_key :: attributes.getD [] }

/-- The named hybrid-search parameters recognised by `_build_query_obj`
(vectorstores.py line 109). -/
def hybridArgs : List String :=
  ["query", "alpha", "vector", "properties", "fusion_type"]

/-- The truthy hybrid parameters extracted from the kwargs, in
`hybridArgs` order (vectorstores.py lines 119-121). -/
def hybridParams (kwargs : Kwargs) : List (String × PyVal) :=
  hybridArgs.filterMap
    (fun a => if truthy (kget kwargs a) then some (a, kget kwargs a) else Option.none)

/-- `_build_query_obj` (vectorstores.py lines 96-125): starts from
`client.query.get(index_name, query_attrs)`, then applies `with_where`,
`with_tenant`, `with_additional`, `with_limit` for each truthy kwarg in
that order, and finally `with_hybrid` with the truthy hybrid parameters
when at least one is present. -/
def _build_query_obj (st : WeaviateVectorStore) (kwargs : Kwargs) : QueryObj :=
  let q0 : QueryObj := { className := st.indexName, properties := st.queryAttrs }
  let q1 := if truthy (kget kwargs "where_filter")
    then q0.with_where (kget kwargs "where_filter") else q0
  let q2 := if truthy (kget kwargs "tenant")
    then q1.with_tenant (kget kwargs "tenant") else q1
  let q3 := if truthy (kget kwargs "additional")
    then q2.with_additional (kget kwargs "additional") else q2
  let q4 := if truthy (kget kwargs "limit")
    then q3.with_limit (kget kwargs "limit") else q3
  if (hybridParams kwargs).isEmpty then q4 else q4.with_hybrid (hybridParams kwargs)

/-- The service's decoded JSON response to one query: the optional
`result["errors"]` entry, and `result["data"]["Get"][index_name]`. -/
structure SvcResult where
  errors : Option PyVal
  payload : List Record

/-- The external Weaviate query endpoint: `query_obj.do()`. -/
abbrev Svc := QueryObj → SvcResult

/-- `delete` (vectorstores.py lines 454-466): `ids is None` raises
`ValueError("No ids provided to delete.")`; otherwise one delete request per
id is issued, in order.  The first component is the trace of per-id delete
network calls. -/
def delete (ids : Option (List String)) : List String × Except VErr Unit :=
  match ids with
  | Option.none => ([], Except.error VErr.noIdsProvided)
  | some l => (l.foldl (fun acc id => acc ++ [id]) [], Except.ok ())

/-- A returned `Document`: `page_content` is the popped text-field value,
`metadata` the remaining fields of the response record. -/
structure Document where
  page_content : PyVal
  metadata : Record

/-- The decode step shared by `similarity_search` and
`similarity_search_by_vector` (lines 209-211 and 224-226): the loop body
`text = res.pop(text_key); Document(page_content=text, metadata=res)`.
A missing text key raises `KeyError`. -/
def decodeDoc (text_key : String) (r : Record) : Except VErr Document :=
  match rget r text_key with
  | some v => Except.ok { page_content := v, metadata := rerase r text_key }
  | Option.none => Except.error (VErr.keyError text_key)

/-- `_perform_search` (vectorstores.py lines 181-192): raises when no
embedding function is configured, else embeds the query, builds the query
object with `query`, `limit` and `vector` merged into the kwargs, issues
it, and raises on a response carrying `errors`.  The first component is
the trace of queries issued to the service. -/
def _perform_search (st : WeaviateVectorStore) (svc : Svc) (query : String)
    (k : ℤ) (kwargs : Kwargs) : List QueryObj × Except VErr SvcResult :=
  match st.embedding with
  | Option.none => ([], Except.error VErr.embeddingRequired)
  | some f =>
    let emb := f.embedQuery query
    let qObj := _build_query_obj st
      (("query", PyVal.str query) :: ("limit", PyVal.int k) ::
        ("vector", PyVal.list (emb.map PyVal.rat)) :: kwargs)
    let result := svc qObj
    ([qObj],
      match result.errors with
      | some e => Except.error (VErr.queryError e)
      | Option.none => Except.ok result)

/-- `similarity_search` (vectorstores.py lines 194-212). -/
def similarity_search (st : WeaviateVectorStore) (svc : Svc) (query : String)
    (k : ℤ) (kwargs : Kwargs) : List QueryObj × Except VErr (List Document) :=
  match _perform_search st svc query k kwargs with
  | (qs, Except.error e) => (qs, Except.error e)
  | (qs, Except.ok result) => (qs, exceptMap (decodeDoc st.textKey) result.payload)

/-- `similarity_search_by_vector` (vectorstores.py lines 214-227). -/
def similarity_search_by_vector (st : WeaviateVectorStore) (svc : Svc)
    (embedding : List ℚ) (k : ℤ) (kwargs : Kwargs) :
    List QueryObj × Except VErr (List Document) :=
  let qObj := ((_build_query_obj st kwargs).with_near_vector
      (PyVal.dict [("vector", PyVal.list (embedding.map PyVal.rat))])).with_limit
      (PyVal.int k)
  let result := svc qObj
  ([qObj],
    match result.errors with
    | some e => Except.error (VErr.queryError e)
    | Option.none => exceptMap (decodeDoc st.textKey) result.payload)

/-- The decode loop body of `similarity_search_with_score` (lines
328-331): pops the text field, reads `res["_additional"]["score"]`, and
keeps the rest of the record — `_additional` included — as metadata. -/
def decodeScoredDoc (text_key : String) (r : Record) :
    Except VErr (Document × PyVal) :=
  match rget r text_key with
  | Option.none => Except.error (VErr.keyError text_key)
  | some v =>
    let r1 := rerase r text_key
    match rget r1 "_additional" with
    | some (PyVal.dict d) =>
      match rget d "score" with
      | some score => Except.ok ({ page_content := v, metadata := r1 }, score)
      | Option.none => Except.error (VErr.keyError "score")
    | _ => Except.error (VErr.keyError "_additional")

/-- `similarity_search_with_score` (vectorstores.py lines 313-332):
`_perform_search` with `additional=["score"]` prepended to the kwargs,
then the scored decode loop. -/
def similarity_search_with_score (st : WeaviateVectorStore) (svc : Svc)
    (query : String) (k : ℤ) (kwargs : Kwargs) :
    List QueryObj × Except VErr (List (Document × PyVal)) :=
  match _perform_search st svc query k
      (("additional", PyVal.list [PyVal.str "score"]) :: kwargs) with
  | (qs, Except.error e) => (qs, Except.error e)
  | (qs, Except.ok result) =>
    (qs, exceptMap (decodeScoredDoc st.textKey) result.payload)

/-- `l[n]` with a default, used where an index is already known to be in
range. -/
def nthD {α : Type} (l : List α) (n : ℕ) (d : α) : α :=
  match l.get? n with
  | some x => x
  | Option.none => d

/-- Index of the first maximal element of a score list, counting from
`i`, with current best index `best` holding score `bestScore`; a later
element wins only with a strictly greater score, so the lowest index wins
ties. -/
def argmaxAux : List ℚ → ℕ → ℕ → ℚ → ℕ
  | [], _, best, _ => best
  | s :: rest, i, best, bestScore =>
    if bestScore < s then argmaxAux rest (i + 1) i s
    else argmaxAux rest (i + 1) best bestScore

/-- Index of the first maximal element of a nonempty score list (`0` on
the empty list). -/
def argmaxList : List ℚ → ℕ
  | [] => 0
  | s :: rest => argmaxAux rest 1 0 s

/-- Maximum of a nonempty collection given as head plus tail. -/
def maxList (q : ℚ) : List ℚ → ℚ
  | [] => q
  | x :: xs => maxList (max q x) xs

/-- Modelled from the spec: step 4a of `MMRSelector.select` (spec
section 4.2) — the redundancy of candidate `i` is the maximum similarity
between candidate `i` and any already-selected candidate. -/
def redundancy (sim : List ℚ → List ℚ → ℚ) (cands : List (List ℚ))
    (selected : List ℕ) (i : ℕ) : ℚ :=
  match selected with
  | [] => 0
  | j :: js =>
    maxList (sim (nthD cands i []) (nthD cands j []))
      (js.map (fun j2 => sim (nthD cands i []) (nthD cands j2 [])))

/-- Modelled from the spec: step 4b of `MMRSelector.select` — the MMR
score `lambdaMult * similarityToQuery[i] - (1 - lambdaMult) *
redundancy[i]`. -/
def mmrScore (sim : List ℚ → List ℚ → ℚ) (cands : List (List ℚ))
    (simQ : List ℚ) (lambda_mult : ℚ) (selected : List ℕ) (i : ℕ) : ℚ :=
  lambda_mult * nthD simQ i 0 - (1 - lambda_mult) * redundancy sim cands selected i

/-- Modelled from the spec: step 4 of `MMRSelector.select` — while fewer
than `k` results are selected and candidates remain, move the remaining
candidate with the greatest MMR score (lowest index among ties) from the
remaining pool to the selection. -/
def mmrLoop (sim : List ℚ → List ℚ → ℚ) (cands : List (List ℚ))
    (simQ : List ℚ) (lambda_mult : ℚ) :
    ℕ → List ℕ → List ℕ → List ℕ
  | 0, selected, _ => selected
  | _ + 1, selected, [] => selected
  | fuel + 1, selected, r :: rs =>
    let scores := (r :: rs).map (mmrScore sim cands simQ lambda_mult selected)
    let pick := nthD (r :: rs) (argmaxList scores) r
    mmrLoop sim cands simQ lambda_mult fuel (selected ++ [pick])
      ((r :: rs).erase pick)

/-- Modelled from the spec: the greedy selection of `MMRSelector.select`
(spec section 4.2) — empty pool or `k <= 0` yields the empty sequence;
otherwise the first pick is the query-similarity argmax (step 3) and the
remaining `k - 1` picks run the MMR loop over the rest of the pool. -/
def mmrSelectCore (sim : List ℚ → List ℚ → ℚ) (query : List ℚ)
    (cands : List (List ℚ)) (k : ℤ) (lambda_mult : ℚ) : List ℕ :=
  if cands.isEmpty then []
  else if k ≤ 0 then []
  else
    let simQ := cands.map (fun c => sim query c)
    let first := argmaxList simQ
    mmrLoop sim cands simQ lambda_mult (k.toNat - 1) [first]
      ((List.range cands.length).erase first)

/-- Modelled from the spec: `maximal_marginal_relevance`, imported by
vectorstores.py from `langchain_weaviate/utils.py` (not part of the
reviewed sources).  Per spec section 4.2 it fails with `DimensionMismatch`
when any candidate embedding's length differs from the query embedding's
length (propagated from `cosineSimilarity`), and otherwise performs the
greedy selection; the cosine-similarity kernel on well-dimensioned vectors
is abstracted as `sim`. -/
def maximal_marginal_relevance (sim : List ℚ → List ℚ → ℚ) (query : List ℚ)
    (cands : List (List ℚ)) (k : ℤ) (lambda_mult : ℚ) :
    Except VErr (List ℕ) :=
  if cands.any (fun c => c.length != query.length) then
    Except.error VErr.dimensionMismatch
  else Except.ok (mmrSelectCore sim query cands k lambda_mult)

/-- `result["_additional"]["vector"]` read from one response record
(vectorstores.py line 300); a missing key raises `KeyError`. -/
def getAdditionalVector (r : Record) : Except VErr PyVal :=
  match rget r "_additional" with
  | some (PyVal.dict d) =>
    match rget d "vector" with
    | some v => Except.ok v
    | Option.none => Except.error (VErr.keyError "vector")
  | _ => Except.error (VErr.keyError "_additional")

/-- Coercion of a returned raw vector (a JSON list of numbers) to a list
of rationals, as `np.array` would consume it. -/
def asVec : PyVal → List ℚ
  | PyVal.list l =>
    l.map (fun v =>
      match v with
      | PyVal.rat q => q
      | PyVal.int n => (n : ℚ)
      | _ => 0)
  | _ => []

/-- The decode loop body of `max_marginal_relevance_search_by_vector`
(lines 306-310) at one selected index: pops the text field and the
`_additional` entry of `payload[idx]` and keeps the rest as metadata. -/
def decodeMMRDoc (text_key : String) (payload : List Record) (idx : ℕ) :
    Except VErr Document :=
  match pyIndex payload idx with
  | Except.error e => Except.error e
  | Except.ok r =>
    match rget r text_key with
    | Option.none => Except.error (VErr.keyError text_key)
    | some v =>
      let r1 := rerase r text_key
      match rget r1 "_additional" with
      | Option.none => Except.error (VErr.keyError "_additional")
      | some _ =>
        Except.ok { page_content := v, metadata := rerase r1 "_additional" }

/-- `max_marginal_relevance_search_by_vector` (vectorstores.py lines
265-311): builds the query with `with_additional("vector")`, a near-vector
clause and limit `fetch_k`; reads each record's returned raw vector; runs
`maximal_marginal_relevance` with the query embedding, `k` and
`lambda_mult`; then decodes the selected records, stripping the text field
and the `_additional` payload. -/
def max_marginal_relevance_search_by_vector (st : WeaviateVectorStore)
    (svc : Svc) (sim : List ℚ → List ℚ → ℚ) (embedding : List ℚ) (k fetch_k : ℤ)
    (lambda_mult : ℚ) (kwargs : Kwargs) :
    List QueryObj × Except VErr (List Document) :=
  let qObj := (((_build_query_obj st kwargs).with_additional
      (PyVal.str "vector")).with_near_vector
      (PyVal.dict [("vector", PyVal.list (embedding.map PyVal.rat))])).with_limit
      (PyVal.int fetch_k)
  let results := svc qObj
  let payload := results.payload
  ([qObj],
    match exceptMap getAdditionalVector payload with
    | Except.error e => Except.error e
    | Except.ok rawVecs =>
      match maximal_marginal_relevance sim embedding (rawVecs.map asVec) k
          lambda_mult with
      | Except.error e => Except.error e
      | Except.ok mmr_selected =>
        exceptMap (decodeMMRDoc st.textKey payload) mmr_selected)

/-- `max_marginal_relevance_search` (vectorstores.py lines 229-263):
raises when no embedding function is configured, else embeds the query
text and delegates to the by-vector variant with the same arguments. -/
def max_marginal_relevance_search (st : WeaviateVectorStore) (svc : Svc)
    (sim : List ℚ → List ℚ → ℚ) (query : String) (k fetch_k : ℤ)
    (lambda_mult : ℚ) (kwargs : Kwargs) :
    List QueryObj × Except VErr (List Document) :=
  match st.embedding with
  | Option.none => ([], Except.error VErr.embeddingRequired)
  | some f =>
    max_marginal_relevance_search_by_vector st svc sim (f.embedQuery query) k
      fetch_k lambda_mult kwargs

/-- The keyword arguments inspected by `add_texts`: `uuids` (checked
first), `ids`, and `tenant` (read with `kwargs.get`). -/
structure AddKwargs where
  uuids : Option (List String)
  ids : Option (List String)
  tenant : Option PyVal

/-- One object handed to `batch.add_data_object`: its uuid, property map,
optional vector and optional tenant. -/
structure InsertedObject where
  uuid : String
  properties : Record
  vector : Option (List ℚ)
  tenant : Option PyVal

/-- The property dict of the `i`-th record in `add_texts` (lines
156-159): `{text_key: text}` extended with the serialized entries of
`metadatas[i]` when metadata is given. -/
def buildProps (text_key : String) (metadatas : Option (List Record))
    (i : ℕ) (text : String) : Except VErr Record :=
  match metadatas with
  | Option.none => Except.ok [(text_key, PyVal.str text)]
  | some ms =>
    match pyIndex ms i with
    | Except.error e => Except.error e
    | Except.ok m =>
      Except.ok (m.foldl (fun acc p => rset acc p.1 (_json_serializable p.2))
        [(text_key, PyVal.str text)])

/-- The id of the `i`-th object in `add_texts` (lines 165-169): a fresh
UUID by default, overridden by `kwargs["uuids"][i]` when `uuids` is given,
else by `kwargs["ids"][i]` when `ids` is given. -/
def chooseId (gen : ℕ → String) (kwargs : AddKwargs) (i : ℕ) :
    Except VErr String :=
  match kwargs.uuids with
  | some us => pyIndex us i
  | Option.none =>
    match kwargs.ids with
    | some l => pyIndex l i
    | Option.none => Except.ok (gen i)

/-- `embeddings[i] if embeddings else None` (line 175). -/
def chooseVec (embeddings : Option (List (List ℚ))) (i : ℕ) :
    Except VErr (Option (List ℚ)) :=
  match embeddings with
  | Option.none => Except.ok Option.none
  | some es =>
    match pyIndex es i with
    | Except.error e => Except.error e
    | Except.ok e => Except.ok (some e)

/-- The batching loop of `add_texts` (lines 154-179), indexed from `i`:
returns the accumulated id list and the objects handed to the batch, in
input order. -/
def addTextsLoop (st : WeaviateVectorStore) (gen : ℕ → String)
    (metadatas : Option (List Record)) (kwargs : AddKwargs)
    (embeddings : Option (List (List ℚ))) :
    ℕ → List String → Except VErr (List String × List InsertedObject)
  | _, [] => Except.ok ([], [])
  | i, text :: rest =>
    match buildProps st.textKey metadatas i text with
    | Except.error e => Except.error e
    | Except.ok props =>
      match chooseId gen kwargs i with
      | Except.error e => Except.error e
      | Except.ok _id =>
        match chooseVec embeddings i with
        | Except.error e => Except.error e
        | Except.ok vec =>
          match addTextsLoop st gen metadatas kwargs embeddings (i + 1) rest with
          | Except.error e => Except.error e
          | Except.ok (restIds, restObjs) =>
            Except.ok (_id :: restIds,
              { uuid := _id, properties := props, vector := vec,
                tenant := kwargs.tenant } :: restObjs)

/-- `add_texts` (vectorstores.py lines 138-179): embeds all texts when an
embedding function is configured, then batches one object per text and
returns the assigned ids in input order.  `gen i` stands for the `i`-th
`get_valid_uuid(uuid4())` value drawn. -/
def add_texts (st : WeaviateVectorStore) (gen : ℕ → String)
    (texts : List String) (metadatas : Option (List Record))
    (kwargs : AddKwargs) : Except VErr (List String × List InsertedObject) :=
  let embeddings := st.embedding.map (fun f => f.embedDocuments texts)
  addTextsLoop st gen metadatas kwargs embeddings 0 texts

/-- A schema-create request: the class name and its declared properties
with their data types. -/
structure SchemaClass where
  className : String
  schemaProperties : List (String × List String)

/-- `_default_schema` (vectorstores.py lines 30-39). -/
def _default_schema (index_name : String) : SchemaClass :=
  { className := index_name, schemaProperties := [("text", ["text"])] }

/-- `index_name or f"LangChain_{uuid4().hex}"` (line 400): Python `or`
falls through on a falsy (absent or empty) name. -/
def resolveIndexName (index_name : Option String) (hex : String) : String :=
  match index_name with
  | some s => if s = "" then "LangChain_" ++ hex else s
  | Option.none => "LangChain_" ++ hex

/-- The batching loop of `from_texts` (lines 416-441), indexed from `i`:
property dicts are built from the raw metadata (no serialization step
here), ids come from the resolved uuid list, vectors are attached exactly
when embeddings were computed. -/
def fromTextsLoop (text_key : String) (metadatas : Option (List Record))
    (uuidsL : List String) (embeddings : Option (List (List ℚ))) :
    ℕ → List String → Except VErr (List InsertedObject)
  | _, [] => Except.ok []
  | i, text :: rest =>
    match (match metadatas with
      | Option.none => Except.ok [(text_key, PyVal.str text)]
      | some ms =>
        match pyIndex ms i with
        | Except.error e => Except.error e
        | Except.ok m =>
          Except.ok (m.foldl (fun acc p => rset acc p.1 p.2)
            [(text_key, PyVal.str text)])) with
    | Except.error e => Except.error e
    | Except.ok props =>
      match pyIndex uuidsL i with
      | Except.error e => Except.error e
      | Except.ok _id =>
        match chooseVec embeddings i with
        | Except.error e => Except.error e
        | Except.ok vec =>
          match fromTextsLoop text_key metadatas uuidsL embeddings (i + 1) rest with
          | Except.error e => Except.error e
          | Except.ok restObjs =>
            Except.ok ({ uuid := _id, properties := props, vector := vec,
                         tenant := Option.none } :: restObjs)

/-- `from_texts` (vectorstores.py lines 334-452): resolves the index
name, issues a schema-create request exactly when `client.schema.exists`
is false, embeds the texts when an embedding is given, resolves uuids
(caller-supplied `uuids` kwarg, else one generated per text), batches the
objects, and returns the constructed store.  The first component is the
trace of schema-create requests issued. -/
def from_texts (schemaExists : String → Bool) (gen : ℕ → String)
    (hex : String) (texts : List String) (embedding : Option EmbFn)
    (metadatas : Option (List Record)) (index_name : Option String)
    (text_key : String) (uuids : Option (List String)) :
    List SchemaClass × Except VErr (List InsertedObject × WeaviateVectorStore) :=
  let name := resolveIndexName index_name hex
  let schemaCalls := if schemaExists name then [] else [_default_schema name]
  let embeddings := embedding.map (fun f => f.embedDocuments texts)
  let attributes : Option (List String) :=
    match metadatas with
    | some (m :: _) => some (m.map Prod.fst)
    | _ => Option.none
  let uuidsL :=
    match uuids with
    | some us => us
    | Option.none => (List.range texts.length).map gen
  (schemaCalls,
    match fromTextsLoop text_key metadatas uuidsL embeddings 0 texts with
    | Except.error e => Except.error e
    | Except.ok objs =>
      Except.ok (objs, WeaviateVectorStore.init name text_key embedding attributes))

/-! Concrete instances used by witness theorems. -/

/-- A trivial similarity kernel. -/
def simZero : List ℚ → List ℚ → ℚ := fun _ _ => 0

/-- A service answering every query with an empty, error-free result. -/
def svcEmpty : Svc := fun _ => { errors := Option.none, payload := [] }

/-- A constant embedding model. -/
def embX : EmbFn :=
  { embedQuery := fun _ => [1, 0]
    embedDocuments := fun ts => ts.map (fun _ => [1, 0]) }

/-- A store with no embedding function configured. -/
def stNoEmb : WeaviateVectorStore :=
  WeaviateVectorStore.init "Idx" "text" Option.none Option.none

/-- A store with an embedding function configured. -/
def stEmb : WeaviateVectorStore :=
  WeaviateVectorStore.init "Idx" "text" (some embX) Option.none

/-- A deterministic stand-in for the stream of generated UUIDs. -/
def genA : ℕ → String := fun i => "gen" ++ toString i

/-! Helper lemmas. -/

theorem foldl_push_eq {α : Type} (l : List α) :
    ∀ acc : List α, l.foldl (fun a x => a ++ [x]) acc = acc ++ l := by
  induction l with
  | nil => intro acc; simp
  | cons x xs ih => intro acc; simp [List.foldl, ih]

theorem build_properties (st : WeaviateVectorStore) (kw : Kwargs) :
    (_build_query_obj st kw).properties = st.queryAttrs := by
  simp only [_build_query_obj, QueryObj.with_where, QueryObj.with_tenant,
    QueryObj.with_additional, QueryObj.with_limit, QueryObj.with_hybrid]
  split_ifs <;> rfl

theorem build_whereFilter (st : WeaviateVectorStore) (kw : Kwargs) :
    (_build_query_obj st kw).whereFilter =
      if truthy (kget kw "where_filter") then some (kget kw "where_filter")
      else Option.none := by
  simp only [_build_query_obj, QueryObj.with_where, QueryObj.with_tenant,
    QueryObj.with_additional, QueryObj.with_limit, QueryObj.with_hybrid]
  split_ifs <;> rfl

theorem build_tenant (st : WeaviateVectorStore) (kw : Kwargs) :
    (_build_query_obj st kw).tenant =
      if truthy (kget kw "tenant") then some (kget kw "tenant")
      else Option.none := by
  simp only [_build_query_obj, QueryObj.with_where, QueryObj.with_tenant,
    QueryObj.with_additional, QueryObj.with_limit, QueryObj.with_hybrid]
  split_ifs <;> rfl

theorem build_additional (st : WeaviateVectorStore) (kw : Kwargs) :
    (_build_query_obj st kw).additional =
      if truthy (kget kw "additional") then [kget kw "additional"] else [] := by
  simp only [_build_query_obj, QueryObj.with_where, QueryObj.with_tenant,
    QueryObj.with_additional, QueryObj.with_limit, QueryObj.with_hybrid]
  split_ifs <;> rfl

theorem build_limit (st : WeaviateVectorStore) (kw : Kwargs) :
    (_build_query_obj st kw).limit =
      if truthy (kget kw "limit") then some (kget kw "limit")
      else Option.none := by
  simp only [_build_query_obj, QueryObj.with_where, QueryObj.with_tenant,
    QueryObj.with_additional, QueryObj.with_limit, QueryObj.with_hybrid]
  split_ifs <;> rfl

theorem build_hybrid (st : WeaviateVectorStore) (kw : Kwargs) :
    (_build_query_obj st kw).hybrid =
      if (hybridParams kw).isEmpty then Option.none
      else some (hybridParams kw) := by
  simp only [_build_query_obj, QueryObj.with_where, QueryObj.with_tenant,
    QueryObj.with_additional, QueryObj.with_limit, QueryObj.with_hybrid]
  split_ifs <;> rfl

@[simp] theorem with_additional_properties (q : QueryObj) (v : PyVal) :
    (q.with_additional v).properties = q.properties := rfl

@[simp] theorem with_near_vector_properties (q : QueryObj) (v : PyVal) :
    (q.with_near_vector v).properties = q.properties := rfl

@[simp] theorem with_limit_properties (q : QueryObj) (v : PyVal) :
    (q.with_limit v).properties = q.properties := rfl

theorem exceptMap_error_from {α β : Type} (f : α → Except VErr β) (e : VErr) :
    ∀ l : List α, exceptMap f l = Except.error e → ∃ x ∈ l, f x = Except.error e := by
  intro l
  induction l with
  | nil => intro h; exact absurd h (by simp [exceptMap])
  | cons x xs ih =>
    intro h
    unfold exceptMap at h
    rcases hx : f x with e' | y
    · simp only [hx, Except.error.injEq] at h
      exact ⟨x, List.mem_cons_self x xs, by rw [hx, h]⟩
    · simp only [hx] at h
      rcases hxs : exceptMap f xs with e'' | ys
      · simp only [hxs, Except.error.injEq] at h
        rw [h] at hxs
        rcases ih hxs with ⟨z, hz, hfz⟩
        exact ⟨z, List.mem_cons_of_mem x hz, hfz⟩
      · simp only [hxs] at h
        exact absurd h (by simp)

theorem decodeDoc_not_embReq (tk : String) (r : Record) :
    decodeDoc tk r ≠ Except.error VErr.embeddingRequired := by
  unfold decodeDoc
  rcases h : rget r tk with _ | v <;> simp [h]

theorem getAdditionalVector_not_embReq (r : Record) :
    getAdditionalVector r ≠ Except.error VErr.embeddingRequired := by
  unfold getAdditionalVector
  rcases h : rget r "_additional" with _ | v
  · simp [h]
  · rcases v with _ | b | n | q | s | l | d | dt
    case dict =>
      simp only [h]
      rcases h2 : rget d "vector" with _ | w <;> simp [h2]
    all_goals simp [h]

theorem decodeMMRDoc_not_embReq (tk : String) (payload : List Record) (idx : ℕ) :
    decodeMMRDoc tk payload idx ≠ Except.error VErr.embeddingRequired := by
  unfold decodeMMRDoc pyIndex
  rcases h : payload.get? idx with _ | r
  · simp [h]
  · simp only [h]
    rcases h1 : rget r tk with _ | v
    · simp [h1]
    · simp only [h1]
      rcases h2 : rget (rerase r tk) "_additional" with _ | w <;> simp [h1, h2]

theorem mmr_not_embReq (sim : List ℚ → List ℚ → ℚ) (query : List ℚ)
    (cands : List (List ℚ)) (k : ℤ) (lm : ℚ) :
    maximal_marginal_relevance sim query cands k lm ≠
      Except.error VErr.embeddingRequired := by
  unfold maximal_marginal_relevance
  split_ifs <;> simp

/-- The result component of `max_marginal_relevance_search_by_vector` as a
function of an arbitrary payload never raises `EmbeddingRequired`. -/
theorem mmr_decode_chain_not_embReq (tk : String) (payload : List Record)
    (sim : List ℚ → List ℚ → ℚ) (e : List ℚ) (k : ℤ) (lm : ℚ) :
    (match exceptMap getAdditionalVector payload with
      | Except.error e1 => Except.error e1
      | Except.ok rawVecs =>
        match maximal_marginal_relevance sim e (rawVecs.map asVec) k lm with
        | Except.error e2 => Except.error e2
        | Except.ok sel => exceptMap (decodeMMRDoc tk payload) sel) ≠
      Except.error VErr.embeddingRequired := by
  rcases h1 : exceptMap getAdditionalVector payload with e1 | rawVecs
  · simp only [h1]
    intro hc
    rw [Except.error.injEq] at hc
    rw [hc] at h1
    rcases exceptMap_error_from _ _ _ h1 with ⟨x, _, hx⟩
    exact getAdditionalVector_not_embReq x hx
  · simp only [h1]
    rcases h2 : maximal_marginal_relevance sim e (rawVecs.map asVec) k lm with e2 | sel
    · simp only [h2]
      intro hc
      rw [Except.error.injEq] at hc
      rw [hc] at h2
      exact mmr_not_embReq _ _ _ _ _ h2
    · simp only [h2]
      intro hc
      rcases exceptMap_error_from _ _ _ hc with ⟨x, _, hx⟩
      exact decodeMMRDoc_not_embReq _ _ x hx

theorem mmr_by_vector_not_embReq (st : WeaviateVectorStore) (svc : Svc)
    (sim : List ℚ → List ℚ → ℚ) (e : List ℚ) (k fetch_k : ℤ) (lm : ℚ)
    (kw : Kwargs) :
    (max_marginal_relevance_search_by_vector st svc sim e k fetch_k lm kw).2 ≠
      Except.error VErr.embeddingRequired :=
  mmr_decode_chain_not_embReq st.textKey
    (svc ((((_build_query_obj st kw).with_additional
      (PyVal.str "vector")).with_near_vector
      (PyVal.dict [("vector", PyVal.list (e.map PyVal.rat))])).with_limit
      (PyVal.int fetch_k))).payload sim e k lm

theorem perform_search_embReq_iff (st : WeaviateVectorStore) (svc : Svc)
    (query : String) (k : ℤ) (kw : Kwargs) :
    ((_perform_search st svc query k kw).2 = Except.error VErr.embeddingRequired
        ↔ st.embedding = Option.none) ∧
      (st.embedding = Option.none → (_perform_search st svc query k kw).1 = []) := by
  cases h : st.embedding with
  | none => unfold _perform_search; simp [h]
  | some f =>
    unfold _perform_search
    simp only [h]
    refine ⟨⟨fun hc => ?_, fun hc => absurd hc (by simp)⟩,
      fun hc => absurd hc (by simp)⟩
    exfalso
    rcases hE : (svc (_build_query_obj st
        (("query", PyVal.str query) :: ("limit", PyVal.int k) ::
          ("vector", PyVal.list ((f.embedQuery query).map PyVal.rat)) :: kw))).errors with _ | e
    · rw [hE] at hc; simp at hc
    · rw [hE] at hc; simp at hc

theorem similarity_search_snd (st : WeaviateVectorStore) (svc : Svc)
    (query : String) (k : ℤ) (kw : Kwargs) :
    (similarity_search st svc query k kw).2 =
      (match (_perform_search st svc query k kw).2 with
        | Except.error e => Except.error e
        | Except.ok result => exceptMap (decodeDoc st.textKey) result.payload) := by
  unfold similarity_search
  rcases h : _perform_search st svc query k kw with ⟨qs, r⟩
  cases r <;> rfl

theorem similarity_search_fst (st : WeaviateVectorStore) (svc : Svc)
    (query : String) (k : ℤ) (kw : Kwargs) :
    (similarity_search st svc query k kw).1 = (_perform_search st svc query k kw).1 := by
  unfold similarity_search
  rcases h : _perform_search st svc query k kw with ⟨qs, r⟩
  cases r <;> rfl

theorem similarity_search_with_score_fst (st : WeaviateVectorStore) (svc : Svc)
    (query : String) (k : ℤ) (kw : Kwargs) :
    (similarity_search_with_score st svc query k kw).1 =
      (_perform_search st svc query k
        (("additional", PyVal.list [PyVal.str "score"]) :: kw)).1 := by
  unfold similarity_search_with_score
  rcases h : _perform_search st svc query k
    (("additional", PyVal.list [PyVal.str "score"]) :: kw) with ⟨qs, r⟩
  cases r <;> rfl

theorem perform_search_trace_props (st : WeaviateVectorStore) (svc : Svc)
    (query : String) (k : ℤ) (kw : Kwargs) :
    ∀ qo ∈ (_perform_search st svc query k kw).1, qo.properties = st.queryAttrs := by
  intro qo hqo
  unfold _perform_search at hqo
  cases h : st.embedding with
  | none => rw [h] at hqo; simp at hqo
  | some f =>
    rw [h] at hqo
    simp only [List.mem_singleton] at hqo
    rw [hqo]
    exact build_properties st _

theorem rget_rerase_self (r : Record) (k : String) :
    rget (rerase r k) k = Option.none := by
  unfold rget rerase
  simp only [Option.map_eq_none']
  rw [List.find?_eq_none]
  intro p hp
  have hb := List.of_mem_filter hp
  simp only [bne_iff_ne, ne_eq] at hb
  simp [hb]

theorem exceptMap_ok_mem {α β : Type} (f : α → Except VErr β) :
    ∀ (l : List α) (ys : List β), exceptMap f l = Except.ok ys →
      ∀ y ∈ ys, ∃ x ∈ l, f x = Except.ok y := by
  intro l
  induction l with
  | nil =>
    intro ys h y hy
    unfold exceptMap at h
    rw [Except.ok.injEq] at h
    subst h
    simp at hy
  | cons x xs ih =>
    intro ys h y hy
    unfold exceptMap at h
    rcases hx : f x with e | z
    · simp only [hx] at h
      exact absurd h (by simp)
    · simp only [hx] at h
      rcases hxs : exceptMap f xs with e | zs
      · simp only [hxs] at h
        exact absurd h (by simp)
      · simp only [hxs] at h
        rw [Except.ok.injEq] at h
        subst h
        rcases List.mem_cons.mp hy with hyz | hyzs
        · exact ⟨x, List.mem_cons_self x xs, by rw [hx, hyz]⟩
        · rcases ih zs hxs y hyzs with ⟨w, hw, hfw⟩
          exact ⟨w, List.mem_cons_of_mem x hw, hfw⟩

/-- Characterization of a successful `decodeMMRDoc`: the selected record
exists, its text field becomes the content, and both the text field and
the `_additional` payload are removed from the metadata. -/
theorem decodeMMRDoc_ok (tk : String) (payload : List Record) (idx : ℕ)
    (d : Document) (h : decodeMMRDoc tk payload idx = Except.ok d) :
    ∃ r, payload.get? idx = some r ∧
      rget r tk = some d.page_content ∧
      d.metadata = rerase (rerase r tk) "_additional" ∧
      rget d.metadata "_additional" = Option.none := by
  unfold decodeMMRDoc pyIndex at h
  rcases hg : payload.get? idx with _ | r
  · simp only [hg] at h
    exact absurd h (by simp)
  · simp only [hg] at h
    rcases h1 : rget r tk with _ | v
    · simp [h1] at h
    · simp only [h1] at h
      rcases h2 : rget (rerase r tk) "_additional" with _ | w
      · simp [h2] at h
      · simp only [h2] at h
        rw [Except.ok.injEq] at h
        subst h
        exact ⟨r, rfl, h1, rfl, rget_rerase_self _ _⟩

/-- The result component of `max_marginal_relevance_search_by_vector` as a
function of an arbitrary payload strips `_additional` from every returned
document. -/
theorem mmr_chain_ok_strip (tk : String) (payload : List Record)
    (sim : List ℚ → List ℚ → ℚ) (e : List ℚ) (k : ℤ) (lm : ℚ)
    (docs : List Document)
    (h : (match exceptMap getAdditionalVector payload with
      | Except.error e1 => Except.error e1
      | Except.ok rawVecs =>
        match maximal_marginal_relevance sim e (rawVecs.map asVec) k lm with
        | Except.error e2 => Except.error e2
        | Except.ok sel => exceptMap (decodeMMRDoc tk payload) sel) =
      Except.ok docs) :
    ∀ doc ∈ docs, rget doc.metadata "_additional" = Option.none := by
  intro doc hdoc
  rcases h1 : exceptMap getAdditionalVector payload with e1 | rawVecs
  · simp only [h1] at h
    exact absurd h (by simp)
  · simp only [h1] at h
    rcases h2 : maximal_marginal_relevance sim e (rawVecs.map asVec) k lm
        with e2 | sel
    · simp only [h2] at h
      exact absurd h (by simp)
    · simp only [h2] at h
      rcases exceptMap_ok_mem _ _ _ h doc hdoc with ⟨idx, _, hidx⟩
      rcases decodeMMRDoc_ok tk payload idx doc hidx with ⟨r, _, _, _, hstrip⟩
      exact hstrip

theorem pyIndex_ok {α : Type} (l : List α) (i : ℕ) (x : α)
    (h : pyIndex l i = Except.ok x) : l.get? i = some x := by
  unfold pyIndex at h
  rcases hg : l.get? i with _ | y
  · simp only [hg] at h
    exact absurd h (by simp)
  · simp only [hg] at h
    rw [Except.ok.injEq] at h
    rw [h]

/-- Characterization of a successful `chooseId`: the id comes from
`uuids[i]`, else `ids[i]`, else the generated stream. -/
theorem chooseId_ok (gen : ℕ → String) (kwargs : AddKwargs) (i : ℕ)
    (v : String) (h : chooseId gen kwargs i = Except.ok v) :
    (match kwargs.uuids with
      | some us => us.get? i
      | Option.none =>
        match kwargs.ids with
        | some l => l.get? i
        | Option.none => some (gen i)) = some v := by
  unfold chooseId at h
  rcases hu : kwargs.uuids with _ | us
  · rcases hi : kwargs.ids with _ | l
    · simp only [hu, hi] at h ⊢
      rw [Except.ok.injEq] at h
      rw [h]
    · simp only [hu, hi] at h ⊢
      exact pyIndex_ok _ _ _ h
  · simp only [hu] at h ⊢
    exact pyIndex_ok _ _ _ h

/-- Invariant of the `add_texts` batching loop: on success it returns one
id and one batched object per text, in input order, the i-th object
carrying the i-th id, each id determined by the uuids/ids/generated
precedence at the absolute index. -/
theorem addTextsLoop_ok (st : WeaviateVectorStore) (gen : ℕ → String)
    (metadatas : Option (List Record)) (kwargs : AddKwargs)
    (embeddings : Option (List (List ℚ))) :
    ∀ (texts : List String) (i : ℕ) (ids : List String)
      (objs : List InsertedObject),
      addTextsLoop st gen metadatas kwargs embeddings i texts =
        Except.ok (ids, objs) →
      ids.length = texts.length ∧ objs.length = texts.length ∧
        objs.map InsertedObject.uuid = ids ∧
        ∀ j, j < texts.length →
          ids.get? j = (match kwargs.uuids with
            | some us => us.get? (i + j)
            | Option.none =>
              match kwargs.ids with
              | some l => l.get? (i + j)
              | Option.none => some (gen (i + j))) := by
  intro texts
  induction texts with
  | nil =>
    intro i ids objs h
    unfold addTextsLoop at h
    rw [Except.ok.injEq, Prod.mk.injEq] at h
    obtain ⟨hids, hobjs⟩ := h
    subst hids
    subst hobjs
    refine ⟨rfl, rfl, rfl, fun j hj => absurd hj (by simp)⟩
  | cons text rest ih =>
    intro i ids objs h
    unfold addTextsLoop at h
    rcases hp : buildProps st.textKey metadatas i text with e | props
    · simp only [hp] at h
      exact absurd h (by simp)
    · simp only [hp] at h
      rcases hid : chooseId gen kwargs i with e | _id
      · simp only [hid] at h
        exact absurd h (by simp)
      · simp only [hid] at h
        rcases hv : chooseVec embeddings i with e | vec
        · simp only [hv] at h
          exact absurd h (by simp)
        · simp only [hv] at h
          rcases hr : addTextsLoop st gen metadatas kwargs embeddings (i + 1) rest
              with e | pr
          · simp only [hr] at h
            exact absurd h (by simp)
          · rcases pr with ⟨restIds, restObjs⟩
            simp only [hr] at h
            rw [Except.ok.injEq, Prod.mk.injEq] at h
            obtain ⟨hids, hobjs⟩ := h
            subst hids
            subst hobjs
            obtain ⟨hl1, hl2, hmap, hidx⟩ := ih (i + 1) restIds restObjs hr
            refine ⟨by simp [hl1], by simp [hl2], by simp [hmap], ?_⟩
            intro j hj
            cases j with
            | zero =>
              simpa using (chooseId_ok gen kwargs i _id hid).symm
            | succ jj =>
              have hlt : jj < rest.length := by
                simpa [Nat.succ_lt_succ_iff] using hj
              have := hidx jj hlt
              have harith : i + 1 + jj = i + (jj + 1) := by omega
              rw [harith] at this
              simpa using this

/-- C4 counterexample: when both `uuids` and `ids` are supplied, the
returned id is `uuids[i]`, not the claimed `ids[i]`. -/
theorem add_texts_uuids_precedence_cex :
    add_texts stNoEmb genA ["a"] Option.none
        { uuids := some ["u"], ids := some ["idX"], tenant := Option.none } =
      Except.ok (["u"],
        [{ uuid := "u", properties := [("text", PyVal.str "a")],
           vector := Option.none, tenant := Option.none }]) ∧
      ("u" : String) ≠ "idX" := by
  exact ⟨rfl, by decide⟩

/-- C4 (amended): a successful `add_texts` over `n` texts returns `n` ids
in input order, attaches the i-th id to the i-th batched object, and the
i-th id is `uuids[i]` when a `uuids` argument is given, else `ids[i]` when
an `ids` argument is given, else the i-th freshly generated UUID. -/
theorem add_texts_spec (st : WeaviateVectorStore) (gen : ℕ → String)
    (texts : List String) (metadatas : Option (List Record))
    (kwargs : AddKwargs) (ids : List String) (objs : List InsertedObject)
    (h : add_texts st gen texts metadatas kwargs = Except.ok (ids, objs)) :
    ids.length = texts.length ∧ objs.length = texts.length ∧
      objs.map InsertedObject.uuid = ids ∧
      ∀ j, j < texts.length →
        ids.get? j = (match kwargs.uuids with
          | some us => us.get? j
          | Option.none =>
            match kwargs.ids with
            | some l => l.get? j
            | Option.none => some (gen j)) := by
  have h' : addTextsLoop st gen metadatas kwargs
      (st.embedding.map (fun f => f.embedDocuments texts)) 0 texts =
      Except.ok (ids, objs) := h
  obtain ⟨h1, h2, h3, h4⟩ :=
    addTextsLoop_ok st gen metadatas kwargs
      (st.embedding.map (fun f => f.embedDocuments texts)) texts 0 ids objs h'
  refine ⟨h1, h2, h3, fun j hj => ?_⟩
  have h5 := h4 j hj
  simpa using h5

/-- C4 witness: with only an `ids` argument, the supplied ids come back in
order and are attached to the batched objects. -/
theorem add_texts_spec_witness :
    (add_texts stNoEmb genA ["a", "b"] Option.none
        { uuids := Option.none, ids := some ["i1", "i2"], tenant := Option.none } =
      Except.ok (["i1", "i2"],
        [{ uuid := "i1", properties := [("text", PyVal.str "a")],
           vector := Option.none, tenant := Option.none },
         { uuid := "i2", properties := [("text", PyVal.str "b")],
           vector := Option.none, tenant := Option.none }])) ∧
      (["i1", "i2"] : List String).length = (["a", "b"] : List String).length ∧
      (["i1", "i2"] : List String).get? 1 = some "i2" := by
  have hcall : add_texts stNoEmb genA ["a", "b"] Option.none
      { uuids := Option.none, ids := some ["i1", "i2"], tenant := Option.none } =
      Except.ok (["i1", "i2"],
        [{ uuid := "i1", properties := [("text", PyVal.str "a")],
           vector := Option.none, tenant := Option.none },
         { uuid := "i2", properties := [("text", PyVal.str "b")],
           vector := Option.none, tenant := Option.none }]) := rfl
  have h := add_texts_spec stNoEmb genA ["a", "b"] Option.none
    { uuids := Option.none, ids := some ["i1", "i2"], tenant := Option.none }
    ["i1", "i2"] _ hcall
  refine ⟨hcall, h.1, ?_⟩
  have h4 := h.2.2.2 1 (by decide)
  exact h4.trans rfl

theorem argmaxAux_lt (B : ℕ) :
    ∀ (l : List ℚ) (i best : ℕ) (q : ℚ), best < B → i + l.length ≤ B →
      argmaxAux l i best q < B := by
  intro l
  induction l with
  | nil =>
    intro i best q hb _
    simpa [argmaxAux] using hb
  | cons s rest ih =>
    intro i best q hb hi
    rw [List.length_cons] at hi
    unfold argmaxAux
    by_cases hc : q < s
    · rw [if_pos hc]
      exact ih (i + 1) i s (by omega) (by omega)
    · rw [if_neg hc]
      exact ih (i + 1) best q hb (by omega)

theorem argmaxList_lt (l : List ℚ) (h : l ≠ []) : argmaxList l < l.length := by
  cases l with
  | nil => exact absurd rfl h
  | cons s rest =>
    unfold argmaxList
    rw [List.length_cons]
    exact argmaxAux_lt (rest.length + 1) rest 1 0 s (by omega) (by omega)

theorem nthD_mem {α : Type} (x : α) (xs : List α) (n : ℕ) :
    nthD (x :: xs) n x ∈ x :: xs := by
  unfold nthD
  rcases hg : (x :: xs).get? n with _ | y
  · exact List.mem_cons_self x xs
  · exact List.get?_mem hg

/-- One step of the MMR loop on a nonempty pool. -/
theorem mmrLoop_cons (sim : List ℚ → List ℚ → ℚ) (cands : List (List ℚ))
    (simQ : List ℚ) (lm : ℚ) (f : ℕ) (selected : List ℕ) (r : ℕ)
    (rs : List ℕ) :
    mmrLoop sim cands simQ lm (f + 1) selected (r :: rs) =
      mmrLoop sim cands simQ lm f
        (selected ++ [nthD (r :: rs)
          (argmaxList ((r :: rs).map (mmrScore sim cands simQ lm selected))) r])
        ((r :: rs).erase (nthD (r :: rs)
          (argmaxList ((r :: rs).map (mmrScore sim cands simQ lm selected))) r)) :=
  rfl

/-- Invariant of the MMR loop: starting from disjoint, duplicate-free,
in-range selected and remaining pools, the loop output is duplicate-free,
in range, and grows the selection by exactly `min fuel remaining.length`
elements. -/
theorem mmrLoop_spec (sim : List ℚ → List ℚ → ℚ) (cands : List (List ℚ))
    (simQ : List ℚ) (lm : ℚ) :
    ∀ (fuel : ℕ) (selected remaining : List ℕ),
      selected.Nodup → remaining.Nodup →
      (∀ x ∈ selected, x ∉ remaining) →
      (∀ x ∈ selected, x < cands.length) →
      (∀ x ∈ remaining, x < cands.length) →
      (mmrLoop sim cands simQ lm fuel selected remaining).Nodup ∧
        (∀ x ∈ mmrLoop sim cands simQ lm fuel selected remaining,
          x < cands.length) ∧
        (mmrLoop sim cands simQ lm fuel selected remaining).length =
          selected.length + min fuel remaining.length := by
  intro fuel
  induction fuel with
  | zero =>
    intro selected remaining h1 _ _ h4 _
    unfold mmrLoop
    exact ⟨h1, h4, by simp⟩
  | succ f ih =>
    intro selected remaining h1 h2 h3 h4 h5
    cases remaining with
    | nil =>
      unfold mmrLoop
      exact ⟨h1, h4, by simp⟩
    | cons r rs =>
      rw [mmrLoop_cons]
      generalize hpick : nthD (r :: rs)
        (argmaxList ((r :: rs).map (mmrScore sim cands simQ lm selected))) r = pick
      have hpmem : pick ∈ r :: rs := hpick ▸ nthD_mem r rs _
      have hplt : pick < cands.length := h5 pick hpmem
      have hsel : (selected ++ [pick]).Nodup := by
        rw [List.nodup_append]
        refine ⟨h1, List.nodup_singleton pick, ?_⟩
        intro x hx hy
        rw [List.mem_singleton] at hy
        subst hy
        exact h3 x hx hpmem
      have hrem : ((r :: rs).erase pick).Nodup := h2.erase pick
      have hdisj : ∀ x ∈ selected ++ [pick], x ∉ (r :: rs).erase pick := by
        intro x hx
        rcases List.mem_append.mp hx with hxs | hxp
        · intro hmem
          exact h3 x hxs (List.mem_of_mem_erase hmem)
        · rw [List.mem_singleton] at hxp
          subst hxp
          intro hmem
          exact (h2.mem_erase_iff.mp hmem).1 rfl
      have hbsel : ∀ x ∈ selected ++ [pick], x < cands.length := by
        intro x hx
        rcases List.mem_append.mp hx with hxs | hxp
        · exact h4 x hxs
        · rw [List.mem_singleton] at hxp
          subst hxp
          exact hplt
      have hbrem : ∀ x ∈ (r :: rs).erase pick, x < cands.length :=
        fun x hx => h5 x (List.mem_of_mem_erase hx)
      obtain ⟨hn, hb, hl⟩ := ih (selected ++ [pick]) ((r :: rs).erase pick)
        hsel hrem hdisj hbsel hbrem
      refine ⟨hn, hb, ?_⟩
      have hLapp : (selected ++ [pick]).length = selected.length + 1 := by simp
      have hLer : ((r :: rs).erase pick).length = rs.length := by
        rw [List.length_erase_of_mem hpmem]
        simp
      rw [hl, hLapp, hLer]
      simp only [List.length_cons]
      omega

/-- Shape of the core greedy selection: duplicate-free, in-range, of
length `min k (pool size)` for positive `k` and empty otherwise. -/
theorem mmrSelectCore_spec (sim : List ℚ → List ℚ → ℚ) (query : List ℚ)
    (cands : List (List ℚ)) (k : ℤ) (lm : ℚ) :
    (mmrSelectCore sim query cands k lm).Nodup ∧
      (∀ i ∈ mmrSelectCore sim query cands k lm, i < cands.length) ∧
      (mmrSelectCore sim query cands k lm).length =
        if k ≤ 0 then 0 else min k.toNat cands.length := by
  unfold mmrSelectCore
  by_cases hE : cands.isEmpty
  · rw [List.isEmpty_iff] at hE
    subst hE
    simp only [List.isEmpty_nil, if_true]
    refine ⟨List.nodup_nil, by simp, ?_⟩
    simp only [List.length_nil, Nat.min_zero]
    split_ifs <;> rfl
  · have hne : cands ≠ [] := by
      intro hc
      rw [hc] at hE
      exact hE rfl
    rw [Bool.not_eq_true] at hE
    simp only [hE, Bool.false_eq_true, if_false]
    by_cases hk : k ≤ 0
    · rw [if_pos hk, if_pos hk]
      exact ⟨List.nodup_nil, by simp, rfl⟩
    · rw [if_neg hk, if_neg hk]
      have hfirst : argmaxList (cands.map (fun c => sim query c)) < cands.length := by
        have := argmaxList_lt (cands.map (fun c => sim query c))
          (by simpa using hne)
        simpa using this
      have hfr : argmaxList (cands.map (fun c => sim query c)) ∈
          List.range cands.length := List.mem_range.mpr hfirst
      obtain ⟨hn, hb, hl⟩ := mmrLoop_spec sim cands
        (cands.map (fun c => sim query c)) lm (k.toNat - 1)
        [argmaxList (cands.map (fun c => sim query c))]
        ((List.range cands.length).erase
          (argmaxList (cands.map (fun c => sim query c))))
        (List.nodup_singleton _)
        ((List.nodup_range cands.length).erase _)
        (by
          intro x hx
          rw [List.mem_singleton] at hx
          subst hx
          intro hmem
          exact (((List.nodup_range cands.length).mem_erase_iff).mp hmem).1 rfl)
        (by
          intro x hx
          rw [List.mem_singleton] at hx
          subst hx
          exact hfirst)
        (fun x hx => List.mem_range.mp (List.mem_of_mem_erase hx))
      refine ⟨hn, hb, ?_⟩
      rw [hl, List.length_erase_of_mem hfr]
      have hkpos : 1 ≤ k.toNat := by omega
      have hnpos : 1 ≤ cands.length := List.length_pos.mpr hne
      simp only [List.length_singleton, List.length_range]
      omega

/-- C1: for well-dimensioned inputs, the MMR selection invoked by
`max_marginal_relevance_search_by_vector` succeeds and returns
pairwise-distinct indices into the candidate list, of length exactly
`min(k, len(candidates))` when `k > 0` (the whole pool when `k` exceeds
the pool size) and empty when `k ≤ 0`. -/
theorem mmr_select_shape (sim : List ℚ → List ℚ → ℚ) (query : List ℚ)
    (cands : List (List ℚ)) (k : ℤ) (lm : ℚ)
    (hdim : ∀ c ∈ cands, c.length = query.length) :
    ∃ out, maximal_marginal_relevance sim query cands k lm = Except.ok out ∧
      out.Nodup ∧ (∀ i ∈ out, i < cands.length) ∧
      out.length = if k ≤ 0 then 0 else min k.toNat cands.length := by
  have hany : (cands.any (fun c => c.length != query.length)) = false := by
    rw [List.any_eq_false]
    intro c hc
    simp [hdim c hc]
  refine ⟨mmrSelectCore sim query cands k lm, ?_, mmrSelectCore_spec sim query cands k lm⟩
  unfold maximal_marginal_relevance
  simp only [hany, Bool.false_eq_true, if_false]

/-- C1 witness: a concrete well-dimensioned pool of three candidates with
`k = 2` yields a duplicate-free selection of length `min 2 3 = 2`. -/
theorem mmr_select_shape_witness :
    (∀ c ∈ ([[1, 0], [0, 1], [1, 1]] : List (List ℚ)),
        c.length = ([1, 0] : List ℚ).length) ∧
      ∃ out, maximal_marginal_relevance simZero [1, 0]
          [[1, 0], [0, 1], [1, 1]] 2 0 = Except.ok out ∧
        out.Nodup ∧
        (∀ i ∈ out, i < ([[1, 0], [0, 1], [1, 1]] : List (List ℚ)).length) ∧
        out.length = if (2 : ℤ) ≤ 0 then 0
          else min (2 : ℤ).toNat ([[1, 0], [0, 1], [1, 1]] : List (List ℚ)).length :=
  ⟨by decide, mmr_select_shape simZero [1, 0] [[1, 0], [0, 1], [1, 1]] 2 0 (by decide)⟩

/-! Claim theorems. -/

/-- C3 counterexample: the modifier `limit` supplied with the falsy value
`0` is dropped by the truthiness filter, so the built request does not
contain the caller-supplied value. -/
theorem build_query_obj_falsy_cex :
    kget [("limit", PyVal.int 0)] "limit" = PyVal.int 0 ∧
      (_build_query_obj stNoEmb [("limit", PyVal.int 0)]).limit = Option.none ∧
      (Option.none : Option PyVal) ≠ some (PyVal.int 0) :=
  ⟨rfl, rfl, fun h => Option.noConfusion h⟩

/-- C3 (amended): every supplied modifier whose value is truthy is
applied to the built request unmodified — `where_filter`, `tenant`,
`additional`, `limit` verbatim in their builder slots, and each truthy
hybrid parameter verbatim inside the `with_hybrid` call — while a
modifier supplied with a falsy value (or not supplied) is treated as
absent. -/
theorem build_query_obj_truthy_passthrough (st : WeaviateVectorStore)
    (kw : Kwargs) :
    (truthy (kget kw "where_filter") = true →
      (_build_query_obj st kw).whereFilter = some (kget kw "where_filter")) ∧
    (truthy (kget kw "where_filter") = false →
      (_build_query_obj st kw).whereFilter = Option.none) ∧
    (truthy (kget kw "tenant") = true →
      (_build_query_obj st kw).tenant = some (kget kw "tenant")) ∧
    (truthy (kget kw "tenant") = false →
      (_build_query_obj st kw).tenant = Option.none) ∧
    (truthy (kget kw "additional") = true →
      (_build_query_obj st kw).additional = [kget kw "additional"]) ∧
    (truthy (kget kw "additional") = false →
      (_build_query_obj st kw).additional = []) ∧
    (truthy (kget kw "limit") = true →
      (_build_query_obj st kw).limit = some (kget kw "limit")) ∧
    (truthy (kget kw "limit") = false →
      (_build_query_obj st kw).limit = Option.none) ∧
    (∀ a ∈ hybridArgs, truthy (kget kw a) = true →
      (a, kget kw a) ∈ hybridParams kw ∧
        (_build_query_obj st kw).hybrid = some (hybridParams kw)) := by
  refine ⟨?_, ?_, ?_, ?_, ?_, ?_, ?_, ?_, ?_⟩
  · intro h; rw [build_whereFilter, h]; rfl
  · intro h; rw [build_whereFilter, h]; rfl
  · intro h; rw [build_tenant, h]; rfl
  · intro h; rw [build_tenant, h]; rfl
  · intro h; rw [build_additional, h]; rfl
  · intro h; rw [build_additional, h]; rfl
  · intro h; rw [build_limit, h]; rfl
  · intro h; rw [build_limit, h]; rfl
  · intro a ha h
    have hmem : (a, kget kw a) ∈ hybridParams kw := by
      apply List.mem_filterMap.mpr
      exact ⟨a, ha, by rw [h]; rfl⟩
    refine ⟨hmem, ?_⟩
    rw [build_hybrid]
    have hne : hybridParams kw ≠ [] := List.ne_nil_of_mem hmem
    simp [List.isEmpty_iff, hne]

/-- C3 witness: a truthy `tenant` value and a truthy hybrid `alpha` value
are both carried into the built request verbatim. -/
theorem build_query_obj_truthy_witness :
    (_build_query_obj stEmb [("tenant", PyVal.str "t"), ("alpha", PyVal.rat 1)]).tenant =
        some (PyVal.str "t") ∧
      ("alpha", PyVal.rat 1) ∈
        hybridParams [("tenant", PyVal.str "t"), ("alpha", PyVal.rat 1)] ∧
      (_build_query_obj stEmb [("tenant", PyVal.str "t"), ("alpha", PyVal.rat 1)]).hybrid =
        some (hybridParams [("tenant", PyVal.str "t"), ("alpha", PyVal.rat 1)]) := by
  have h := build_query_obj_truthy_passthrough stEmb
    [("tenant", PyVal.str "t"), ("alpha", PyVal.rat 1)]
  have halpha := h.2.2.2.2.2.2.2.2 "alpha" (by simp [hybridArgs]) (by decide)
  exact ⟨h.2.2.1 (by decide), halpha.1, halpha.2⟩

/-- C2 counterexample: `delete` with `ids = []` does not fail with
`NoIdsProvided`; it succeeds and issues no per-id delete request, because
the source only checks `ids is None`. -/
theorem delete_empty_ids_cex :
    delete (some ([] : List String)) = ([], Except.ok ()) ∧
      (delete (some ([] : List String))).2 ≠ Except.error VErr.noIdsProvided :=
  ⟨rfl, fun h => Except.noConfusion h⟩

/-- C2 (amended): `delete` fails with `NoIdsProvided` exactly when `ids`
is absent (`None`), and then performs no network call; with any supplied
list — the empty list included — it succeeds, issuing exactly one delete
request per id in order. -/
theorem delete_spec :
    delete Option.none = ([], Except.error VErr.noIdsProvided) ∧
      ∀ l : List String, delete (some l) = (l, Except.ok ()) := by
  refine ⟨rfl, fun l => ?_⟩
  simp [delete, foldl_push_eq]

/-- C8: metadata serialization in `add_texts` — `_json_serializable` maps
a datetime value to its ISO-8601 string and every other value to itself. -/
theorem json_serializable_spec :
    (∀ d : PyDatetime,
        _json_serializable (PyVal.datetime d) = PyVal.str (isoformat d)) ∧
      ∀ v : PyVal, (∀ d : PyDatetime, v ≠ PyVal.datetime d) →
        _json_serializable v = v := by
  refine ⟨fun d => rfl, fun v h => ?_⟩
  cases v with
  | datetime d => exact absurd rfl (h d)
  | none => rfl
  | bool b => rfl
  | int n => rfl
  | rat q => rfl
  | str s => rfl
  | list l => rfl
  | dict d => rfl

/-- C8 witness: a non-datetime value passes through unchanged and a
concrete datetime becomes its ISO string. -/
theorem json_serializable_witness :
    _json_serializable (PyVal.int 3) = PyVal.int 3 ∧
      _json_serializable (PyVal.datetime ⟨2024, 1, 1, 0, 0, 0, 0⟩) =
        PyVal.str (isoformat ⟨2024, 1, 1, 0, 0, 0, 0⟩) ∧
      isoformat ⟨2024, 1, 1, 0, 0, 0, 0⟩ = "2024-01-01T00:00:00" :=
  ⟨json_serializable_spec.2 (PyVal.int 3) (fun _ h => PyVal.noConfusion h),
    json_serializable_spec.1 ⟨2024, 1, 1, 0, 0, 0, 0⟩, rfl⟩

/-- C9: `from_texts` issues a schema-create request exactly when the
resolved index does not already exist; when it exists, no schema call of
any kind is issued, leaving the schema unchanged by this layer. -/
theorem from_texts_schema_calls (schemaExists : String → Bool)
    (gen : ℕ → String) (hex : String) (texts : List String)
    (embedding : Option EmbFn) (metadatas : Option (List Record))
    (index_name : Option String) (text_key : String)
    (uuids : Option (List String)) :
    (from_texts schemaExists gen hex texts embedding metadatas index_name
        text_key uuids).1 =
      if schemaExists (resolveIndexName index_name hex) then []
      else [_default_schema (resolveIndexName index_name hex)] := rfl

/-- C5: a text-based search (`similarity_search`, and the text-based
`max_marginal_relevance_search`) fails with `EmbeddingRequired` exactly
when no embedding function is configured, and in that case no query is
issued to the service. -/
theorem embedding_required_iff (st : WeaviateVectorStore) (svc : Svc)
    (sim : List ℚ → List ℚ → ℚ) (query : String) (k fetch_k : ℤ) (lm : ℚ)
    (kw : Kwargs) :
    ((similarity_search st svc query k kw).2 = Except.error VErr.embeddingRequired
        ↔ st.embedding = Option.none) ∧
      (st.embedding = Option.none → (similarity_search st svc query k kw).1 = []) ∧
      ((max_marginal_relevance_search st svc sim query k fetch_k lm kw).2 =
          Except.error VErr.embeddingRequired ↔ st.embedding = Option.none) ∧
      (st.embedding = Option.none →
        (max_marginal_relevance_search st svc sim query k fetch_k lm kw).1 = []) := by
  refine ⟨?_, ?_, ?_, ?_⟩
  · rw [similarity_search_snd]
    rcases hp : (_perform_search st svc query k kw).2 with e | result
    · simp only []
      constructor
      · intro hc
        rw [Except.error.injEq] at hc
        rw [hc] at hp
        exact (perform_search_embReq_iff st svc query k kw).1.mp hp
      · intro hc
        have h5 := hp.symm.trans ((perform_search_embReq_iff st svc query k kw).1.mpr hc)
        rw [Except.error.injEq] at h5
        rw [h5]
    · simp only []
      constructor
      · intro hc
        exfalso
        rcases exceptMap_error_from _ _ _ hc with ⟨x, _, hx⟩
        exact decodeDoc_not_embReq st.textKey x hx
      · intro hc
        exfalso
        have := (perform_search_embReq_iff st svc query k kw).1.mpr hc
        rw [hp] at this
        exact Except.noConfusion this
  · intro hc
    rw [similarity_search_fst]
    exact (perform_search_embReq_iff st svc query k kw).2 hc
  · cases h : st.embedding with
    | none => unfold max_marginal_relevance_search; simp [h]
    | some f =>
      unfold max_marginal_relevance_search
      simp only [h]
      constructor
      · intro hc
        exact absurd hc (mmr_by_vector_not_embReq st svc sim (f.embedQuery query)
          k fetch_k lm kw)
      · intro hc
        exact absurd hc (by simp)
  · intro hc
    unfold max_marginal_relevance_search
    simp [hc]

/-- C5 witness: without an embedding function both text searches fail with
`EmbeddingRequired` and issue no query; with one configured,
`similarity_search` does not fail with `EmbeddingRequired`. -/
theorem embedding_required_witness :
    (similarity_search stNoEmb svcEmpty "q" 4 []).2 =
        Except.error VErr.embeddingRequired ∧
      (similarity_search stNoEmb svcEmpty "q" 4 []).1 = [] ∧
      (max_marginal_relevance_search stNoEmb svcEmpty simZero "q" 4 20 0 []).2 =
        Except.error VErr.embeddingRequired ∧
      (max_marginal_relevance_search stNoEmb svcEmpty simZero "q" 4 20 0 []).1 = [] ∧
      ¬ (similarity_search stEmb svcEmpty "q" 4 []).2 =
        Except.error VErr.embeddingRequired := by
  have h1 := embedding_required_iff stNoEmb svcEmpty simZero "q" 4 20 0 []
  have h2 := embedding_required_iff stEmb svcEmpty simZero "q" 4 20 0 []
  refine ⟨h1.1.mpr rfl, h1.2.1 rfl, h1.2.2.1.mpr rfl, h1.2.2.2 rfl, fun hc => ?_⟩
  have h3 : stEmb.embedding = Option.none := h2.1.mp hc
  have h4 : (some embX : Option EmbFn) = Option.none := h3
  exact Option.noConfusion h4

/-- C7: with an embedding function configured, the text-based MMR search
returns exactly the result of the by-vector variant applied to the
embedded query with the same arguments. -/
theorem mmr_search_delegates (st : WeaviateVectorStore) (svc : Svc)
    (sim : List ℚ → List ℚ → ℚ) (query : String) (k fetch_k : ℤ) (lm : ℚ)
    (kw : Kwargs) (f : EmbFn) (h : st.embedding = some f) :
    max_marginal_relevance_search st svc sim query k fetch_k lm kw =
      max_marginal_relevance_search_by_vector st svc sim (f.embedQuery query)
        k fetch_k lm kw := by
  unfold max_marginal_relevance_search
  rw [h]

/-- C7 witness: the delegation equation at a concrete store, service and
query. -/
theorem mmr_search_delegates_witness :
    max_marginal_relevance_search stEmb svcEmpty simZero "q" 2 3 0 [] =
      max_marginal_relevance_search_by_vector stEmb svcEmpty simZero
        (embX.embedQuery "q") 2 3 0 [] :=
  mmr_search_delegates stEmb svcEmpty simZero "q" 2 3 0 [] embX rfl

/-- C10: for a store built by `__init__`, the query-attribute list has the
configured text key as its first element, and every query issued by every
search operation requests the text property first — so the decode step's
text-field extraction is always over a requested property. -/
theorem query_attrs_text_key_first (index_name text_key : String)
    (embedding : Option EmbFn) (attributes : Option (List String))
    (st : WeaviateVectorStore)
    (hst : st = WeaviateVectorStore.init index_name text_key embedding attributes)
    (svc : Svc) (sim : List ℚ → List ℚ → ℚ) (query : String) (e : List ℚ)
    (k fetch_k : ℤ) (lm : ℚ) (kw : Kwargs) :
    st.queryAttrs.head? = some text_key ∧
      (∀ qo ∈ (similarity_search st svc query k kw).1,
        qo.properties.head? = some text_key) ∧
      (∀ qo ∈ (similarity_search_by_vector st svc e k kw).1,
        qo.properties.head? = some text_key) ∧
      (∀ qo ∈ (similarity_search_with_score st svc query k kw).1,
        qo.properties.head? = some text_key) ∧
      (∀ qo ∈ (max_marginal_relevance_search_by_vector st svc sim e k fetch_k
          lm kw).1, qo.properties.head? = some text_key) ∧
      (∀ qo ∈ (max_marginal_relevance_search st svc sim query k fetch_k
          lm kw).1, qo.properties.head? = some text_key) := by
  have hqa : st.queryAttrs = text_key :: attributes.getD [] := by rw [hst]; rfl
  refine ⟨by rw [hqa]; rfl, ?_, ?_, ?_, ?_, ?_⟩
  · intro qo hqo
    rw [similarity_search_fst] at hqo
    have hp := perform_search_trace_props st svc query k kw qo hqo
    rw [hp, hqa]
    rfl
  · intro qo hqo
    unfold similarity_search_by_vector at hqo
    simp only [List.mem_singleton] at hqo
    rw [hqo]
    simp [build_properties, hqa]
  · intro qo hqo
    rw [similarity_search_with_score_fst] at hqo
    have hp := perform_search_trace_props st svc query k _ qo hqo
    rw [hp, hqa]
    rfl
  · intro qo hqo
    unfold max_marginal_relevance_search_by_vector at hqo
    simp only [List.mem_singleton] at hqo
    rw [hqo]
    simp [build_properties, hqa]
  · intro qo hqo
    cases hemb : st.embedding with
    | none =>
      unfold max_marginal_relevance_search at hqo
      simp only [hemb] at hqo
      simp at hqo
    | some f =>
      unfold max_marginal_relevance_search at hqo
      simp only [hemb] at hqo
      unfold max_marginal_relevance_search_by_vector at hqo
      simp only [List.mem_singleton] at hqo
      rw [hqo]
      simp [build_properties, hqa]

/-- C10 witness: a concretely constructed store puts the text key first in
its query attributes, and the query `similarity_search` issues requests
the text property first. -/
theorem query_attrs_witness :
    stEmb.queryAttrs.head? = some "text" ∧
      (_build_query_obj stEmb (("query", PyVal.str "q") :: ("limit", PyVal.int 4) ::
          ("vector", PyVal.list ((embX.embedQuery "q").map PyVal.rat)) ::
          ([] : Kwargs))).properties.head? = some "text" := by
  have h := query_attrs_text_key_first "Idx" "text" (some embX) Option.none stEmb
    rfl svcEmpty simZero "q" [1, 0] 4 20 0 []
  refine ⟨h.1, ?_⟩
  refine h.2.1 _ ?_
  show _ ∈ (similarity_search stEmb svcEmpty "q" 4 []).1
  exact List.Mem.head _

/-- C6: decode contracts — the plain decode turns the text field into the
content and everything else into metadata; the MMR decode additionally
removes the `_additional` payload from the metadata (and so does the whole
by-vector MMR search for every returned document); the scored decode keeps
`_additional`, whose `score` entry is the returned score. -/
theorem decode_paths_spec :
    (∀ (tk : String) (r : Record) (v : PyVal), rget r tk = some v →
      decodeDoc tk r =
        Except.ok { page_content := v, metadata := rerase r tk }) ∧
      (∀ (tk : String) (payload : List Record) (idx : ℕ) (d : Document),
        decodeMMRDoc tk payload idx = Except.ok d →
        ∃ r, payload.get? idx = some r ∧
          rget r tk = some d.page_content ∧
          d.metadata = rerase (rerase r tk) "_additional" ∧
          rget d.metadata "_additional" = Option.none) ∧
      (∀ (tk : String) (r : Record) (d : Document) (s : PyVal),
        decodeScoredDoc tk r = Except.ok (d, s) →
        rget r tk = some d.page_content ∧
          d.metadata = rerase r tk ∧
          ∃ dd, rget d.metadata "_additional" = some (PyVal.dict dd) ∧
            rget dd "score" = some s) ∧
      ∀ (st : WeaviateVectorStore) (svc : Svc) (sim : List ℚ → List ℚ → ℚ)
        (e : List ℚ) (k fetch_k : ℤ) (lm : ℚ) (kw : Kwargs)
        (docs : List Document),
        (max_marginal_relevance_search_by_vector st svc sim e k fetch_k
            lm kw).2 = Except.ok docs →
        ∀ doc ∈ docs, rget doc.metadata "_additional" = Option.none := by
  refine ⟨?_, decodeMMRDoc_ok, ?_, ?_⟩
  · intro tk r v h
    unfold decodeDoc
    simp only [h]
  · intro tk r d s h
    unfold decodeScoredDoc at h
    rcases h1 : rget r tk with _ | v
    · simp only [h1] at h
      exact absurd h (by simp)
    · simp only [h1] at h
      rcases h2 : rget (rerase r tk) "_additional" with _ | w
      · simp only [h2] at h
        exact absurd h (by simp)
      · rcases w with _ | b | n | q | s2 | l | dd | dt
        case dict =>
          simp only [h2] at h
          rcases h3 : rget dd "score" with _ | score
          · simp only [h3] at h
            exact absurd h (by simp)
          · simp only [h3] at h
            rw [Except.ok.injEq, Prod.mk.injEq] at h
            obtain ⟨hd, hs⟩ := h
            rw [← hd]
            exact ⟨rfl, rfl, dd, h2, by rw [h3, hs]⟩
        all_goals
          simp only [h2] at h
        all_goals
          exact absurd h (by simp)
  · intro st svc sim e k fetch_k lm kw docs h
    exact mmr_chain_ok_strip st.textKey _ sim e k lm docs h

/-- C6 witness: concrete decodes — the designated text field becomes the
content with the remaining fields as metadata, and the scored decode keeps
the requested score inside the retained `_additional` entry. -/
theorem decode_paths_witness :
    decodeDoc "text" [("text", PyVal.str "a"), ("m", PyVal.int 1)] =
        Except.ok
          { page_content := PyVal.str "a"
            metadata := rerase [("text", PyVal.str "a"), ("m", PyVal.int 1)] "text" } ∧
      rget [("text", PyVal.str "a"),
          ("_additional", PyVal.dict [("score", PyVal.str "0.9")])] "text" =
        some (PyVal.str "a") ∧
      ∃ dd,
        rget (rerase [("text", PyVal.str "a"),
            ("_additional", PyVal.dict [("score", PyVal.str "0.9")])] "text")
          "_additional" = some (PyVal.dict dd) ∧
        rget dd "score" = some (PyVal.str "0.9") := by
  have h1 := decode_paths_spec.1 "text"
    [("text", PyVal.str "a"), ("m", PyVal.int 1)] (PyVal.str "a") rfl
  have h3 := decode_paths_spec.2.2.1 "text"
    [("text", PyVal.str "a"), ("_additional", PyVal.dict [("score", PyVal.str "0.9")])]
    { page_content := PyVal.str "a"
      metadata := rerase [("text", PyVal.str "a"),
        ("_additional", PyVal.dict [("score", PyVal.str "0.9")])] "text" }
    (PyVal.str "0.9") rfl
  exact ⟨h1, h3.1, h3.2.2⟩

end LangchainWeaviate
